import Mathlib

/-!
# Verification of the omd MCP routing/config engine

A shallow embedding, in Lean 4, of the routing/configuration core of the
repository:

* `enhanced_agent/src/mcp_config.py` — typed backend configuration,
  environment-variable substitution, and load-time validation
  (`MCPConfigLoader._replace_env_vars`, `_validate_server_config`,
  `_parse_config`, `ServerConfig.from_dict`);
* `enhanced_agent/src/unified_mcp_client.py` — routing (`search`,
  `_auto_select_servers`, `_auto_select_server`) and the concurrent
  executor (`_search_single`, `_search_multiple`);
* `enhanced_agent/src/dspy_mcp_integration.py` — the semaphore-gated
  fan-out in `gather_information` and the step-level cache used by
  `process_research_query`.

Python dicts are embedded as insertion-ordered association lists,
`None`-able fields as `Option`, raised exceptions as `Except`, and the
concurrency of `asyncio.gather` as explicit interleaving step relations
on task-phase states.  All definitions are executable.
-/

set_option maxRecDepth 4000

namespace Omd

/-! ## Generic list helpers (embedding Python dict/string idioms) -/

/-- Embeds `needle in hay` on character lists: the Python substring test (`in` on
`str`), used by `_auto_select_servers` for keyword matching. -/
def containsSub (needle : List Char) : List Char → Bool
  | [] => needle.isEmpty
  | c :: t => needle.isPrefixOf (c :: t) || containsSub needle t

/-- Accumulator-based whitespace splitter: Python `str.split()` (split on
whitespace runs, dropping empty tokens).  `acc` holds the current token
reversed. -/
def splitWSAux : List Char → List Char → List (List Char)
  | acc, [] => if acc.isEmpty then [] else [acc.reverse]
  | acc, c :: cs =>
    if c.isWhitespace then
      if acc.isEmpty then splitWSAux [] cs else acc.reverse :: splitWSAux [] cs
    else splitWSAux (c :: acc) cs

/-- Embeds Python `str.split()`. -/
def splitWS (l : List Char) : List (List Char) := splitWSAux [] l

/-- Order-preserving first-occurrence deduplication with an explicit `seen`
accumulator: Python `list(dict.fromkeys(xs))` used at the end of
`_auto_select_servers`. -/
def dedupFirstAux (seen : List String) : List String → List String
  | [] => []
  | x :: xs =>
    if x ∈ seen then dedupFirstAux seen xs
    else x :: dedupFirstAux (x :: seen) xs

/-- Embeds `list(dict.fromkeys(xs))`: keep the first occurrence of each element. -/
def dedupFirst (l : List String) : List String := dedupFirstAux [] l

/-! ## Configuration data model (`mcp_config.py`) -/

/-- Embeds `ServerType(str, Enum)`: the closed enum of supported backend kinds. -/
inductive ServerType where
  | ollama | web_search | wikipedia | wikidata | dbpedia | arxiv
  | news | github | finance | weather | playwright
deriving DecidableEq, Repr

/-- The `value` of each `ServerType` member. -/
def ServerType.value : ServerType → String
  | .ollama => "ollama"
  | .web_search => "web_search"
  | .wikipedia => "wikipedia"
  | .wikidata => "wikidata"
  | .dbpedia => "dbpedia"
  | .arxiv => "arxiv"
  | .news => "news"
  | .github => "github"
  | .finance => "finance"
  | .weather => "weather"
  | .playwright => "playwright"

/-- The constructor call `ServerType(s)`: succeeds exactly on the eleven
enum values (Python raises `ValueError` otherwise, hence `Option`). -/
def serverTypeOfString (s : String) : Option ServerType :=
  if s = "ollama" then some .ollama
  else if s = "web_search" then some .web_search
  else if s = "wikipedia" then some .wikipedia
  else if s = "wikidata" then some .wikidata
  else if s = "dbpedia" then some .dbpedia
  else if s = "arxiv" then some .arxiv
  else if s = "news" then some .news
  else if s = "github" then some .github
  else if s = "finance" then some .finance
  else if s = "weather" then some .weather
  else if s = "playwright" then some .playwright
  else none

/-- Embeds `RoutingStrategy(str, Enum)`. -/
inductive RoutingStrategy where
  | auto | manual | multi
deriving DecidableEq, Repr

def RoutingStrategy.value : RoutingStrategy → String
  | .auto => "auto"
  | .manual => "manual"
  | .multi => "multi"

/-- Embeds the constructor call `RoutingStrategy(s)`. -/
def routingStrategyOfString (s : String) : Option RoutingStrategy :=
  if s = "auto" then some .auto
  else if s = "manual" then some .manual
  else if s = "multi" then some .multi
  else none

/-- Embeds `@dataclass ServerConfig`: the typed description of one backend.
Numeric JSON values are embedded as `Int` (`temperature` as `Rat`, since
the source stores a float there). -/
structure ServerConfig where
  name : String
  type : ServerType
  url : String
  enabled : Bool
  timeout : Int
  max_tokens : Option Int
  temperature : Option Rat
  api_key : Option String
  model : Option String
  context_length : Option Int
  max_results : Option Int
  capabilities : List String
  description : String
deriving DecidableEq, Repr

/-- Embeds `@dataclass MCPConfig`.  The `servers` dict is embedded as an
insertion-ordered association list (JSON object keys are unique). -/
structure MCPConfig where
  servers : List (String × ServerConfig)
  default_server : String
  server_selection_strategy : RoutingStrategy
  fallback_servers : List String
  routing_rules : List (String × List String)
deriving DecidableEq, Repr

/-- Embeds Python `self.config.servers.get(name)`: first binding of `name`. -/
def MCPConfig.getServer (cfg : MCPConfig) (name : String) : Option ServerConfig :=
  cfg.servers.lookup name

/-- Embeds `name in self.config.servers and self.config.servers[name].enabled` —
the present-and-enabled test used throughout the router. -/
def serverEnabled (cfg : MCPConfig) (name : String) : Bool :=
  match cfg.getServer name with
  | some sc => sc.enabled
  | none => false

/-! ## Router (`unified_mcp_client.py`) -/

/-- Embeds `topic.replace` + `split`: the keyword list of one routing-rule
topic. -/
def topicKeywords (topic : String) : List (List Char) :=
  splitWS (topic.data.map fun c => if c = '_' then ' ' else c)

/-- Embeds `any(keyword in query_lower for keyword in keywords)` for one
rule; `queryLower` is the already lower-cased character list of the query. -/
def ruleMatches (queryLower : List Char) (topic : String) : Bool :=
  (topicKeywords topic).any fun kw => containsSub kw queryLower

/-- Embeds `UnifiedMCPClient._auto_select_servers`: rule-based selection with
fallback chain, default backend, and first-occurrence deduplication. -/
def autoSelectServers (cfg : MCPConfig) (query : String) : List String :=
  let queryLower := query.data.map Char.toLower
  let fromRules := cfg.routing_rules.foldl
    (fun acc tr =>
      if ruleMatches queryLower tr.1 then
        acc ++ tr.2.filter (serverEnabled cfg)
      else acc) []
  let selected := if fromRules.isEmpty then cfg.fallback_servers.filter (serverEnabled cfg)
                  else fromRules
  let selected2 := if selected.isEmpty then [cfg.default_server] else selected
  dedupFirst selected2

/-- Embeds `UnifiedMCPClient._auto_select_server`: head of the multi selection, or
the default server when that selection is empty. -/
def autoSelectServer (cfg : MCPConfig) (query : String) : String :=
  match autoSelectServers cfg query with
  | [] => cfg.default_server
  | s :: _ => s

/-- The server-list computation at the top of `UnifiedMCPClient.search`
(lines 87–102): an explicit `servers` argument is used verbatim; otherwise
the strategy decides.  The final `else` branch (reached for `manual` with
no explicit list) falls back to the default server. -/
def searchSelect (cfg : MCPConfig) (query : String)
    (servers : Option (List String)) (strategy : Option RoutingStrategy) :
    List String :=
  let strat := strategy.getD cfg.server_selection_strategy
  match servers with
  | some l => l
  | none =>
    match strat with
    | .auto => [autoSelectServer cfg query]
    | .multi => autoSelectServers cfg query
    | .manual => [cfg.default_server]

/-- What the specification says `manual` selection does: `explicit`
filtered to present-and-enabled backends, falling through to the default
backend when the filter empties the list.  Stated from the words of the spec,
for comparison with `searchSelect` (which embeds the source). -/
def manualSelectSpec (cfg : MCPConfig) (explicit : List String) : List String :=
  let filtered := explicit.filter (serverEnabled cfg)
  if filtered.isEmpty then [cfg.default_server] else filtered

/-! ## Executor (`unified_mcp_client.py`) -/

/-- Embeds Python `s.startswith(pre)`. -/
def strStartsWith (s pre : String) : Bool := pre.data.isPrefixOf s.data

/-- Embeds Python `s.endswith(suf)`. -/
def strEndsWith (s suf : String) : Bool := suf.data.isSuffixOf s.data

/-- Outcome of one type-handler invocation (`_handle_ollama`, …): a
normalized result string, or a raised exception carrying its message.  The
handlers themselves do network I/O and are kept abstract. -/
inductive HandlerOutcome where
  | ok (s : String)
  | exn (e : String)
deriving DecidableEq, Repr

/-- The `_get_handler` dispatch table, abstracted: `none` models
`handlers.get(server_type)` returning `None`. -/
abbrev HandlerTable : Type :=
  ServerType → Option (String → ServerConfig → HandlerOutcome)

/-- Embeds `UnifiedMCPClient._search_single` (lines 112–130): absent server,
disabled server and missing handler become `"Error: ..."` strings, and a
handler exception is caught and rendered as `"Error: {e}"`.  The function
is total — it never raises. -/
def searchSingle (cfg : MCPConfig) (handlers : HandlerTable)
    (query serverName : String) : String :=
  match cfg.getServer serverName with
  | none => "Error: Server \x27" ++ serverName ++ "\x27 not found in configuration"
  | some sc =>
    if !sc.enabled then "Error: Server \x27" ++ serverName ++ "\x27 is disabled"
    else
      match handlers sc.type with
      | none => "Error: No handler for server type \x27" ++ sc.type.value ++ "\x27"
      | some h =>
        match h query sc with
        | .ok s => s
        | .exn e => "Error: " ++ e

/-- Embeds Python dict assignment `d[k] = v`: overwrite in place when the key is
present (keeping its original position), else append. -/
def dictInsert (d : List (String × String)) (k v : String) :
    List (String × String) :=
  if (d.lookup k).isSome then d.map (fun p => if p.1 = k then (k, v) else p)
  else d ++ [(k, v)]

/-- The per-entry rendering in the result loop of `_search_multiple`: an
exception value becomes an `Error:` string, anything else is kept. -/
def renderResult : Except String String → String
  | .ok s => s
  | .error e => "Error: " ++ e

/-- Embeds `UnifiedMCPClient._search_multiple` (lines 132–148): `asyncio.gather`
returns one outcome per requested name, positionally; with
`return_exceptions=True` a raised exception arrives as a value
(`Except.error`).  The result dict is built by assignment in requested
order. -/
def searchMultiple (serverNames : List String)
    (results : List (Except String String)) : List (String × String) :=
  (serverNames.zip results).foldl
    (fun d p => dictInsert d p.1 (renderResult p.2)) []

/-! ## Configuration loading and validation (`mcp_config.py`) -/

/-- One raw server entry of the JSON configuration, after JSON decoding:
every field the loader reads, each optional (`data.get`).  Modelling the
entry as this typed record makes the `isinstance` number checks of
`_validate_server_config` vacuously true, which is faithful for any JSON
input that decodes into these types. -/
structure RawServer where
  type : Option String
  url : Option String
  enabled : Option Bool
  timeout : Option Int
  max_tokens : Option Int
  temperature : Option Rat
  api_key : Option String
  model : Option String
  context_length : Option Int
  max_results : Option Int
  capabilities : List String
  description : Option String
deriving DecidableEq, Repr

/-- A raw server entry with every field absent. -/
def RawServer.empty : RawServer :=
  ⟨none, none, none, none, none, none, none, none, none, none, [], none⟩

/-- Raw top-level configuration object (the `servers` key present; the
loader raises immediately when it is missing, before any of the behaviour
modelled here). -/
structure RawConfig where
  servers : List (String × RawServer)
  default_server : Option String
  server_selection_strategy : Option String
  fallback_servers : List String
  routing_rules : List (String × List String)
deriving DecidableEq, Repr

/-- Embeds the Python join of strings with a comma and space. -/
def joinComma : List String → String
  | [] => ""
  | [x] => x
  | x :: xs => x ++ ", " ++ joinComma xs

/-- All `ServerType` members in declaration order. -/
def allServerTypes : List ServerType :=
  [.ollama, .web_search, .wikipedia, .wikidata, .dbpedia, .arxiv,
   .news, .github, .finance, .weather, .playwright]

/-- The suffix by which `_parse_config` classifies an error message as a
soft warning (`e.endswith("may not work correctly.")`). -/
def warningSuffix : String := "may not work correctly."

/-- Embeds `MCPConfigLoader._validate_server_config` (lines 164–210): the ordered
list of validation error messages for one server entry. -/
def validateServerConfig (name : String) (d : RawServer) : List String :=
  let urlErrs := match d.url with
    | none => ["Server \x27" ++ name ++ "\x27: missing required field \x27url\x27"]
    | some _ => []
  let stype := d.type.getD name
  let typeErrs := match serverTypeOfString stype with
    | some _ => []
    | none => ["Server \x27" ++ name ++ "\x27: invalid type \x27" ++ stype ++
        "\x27. Valid types: " ++ joinComma (allServerTypes.map ServerType.value)]
  let keyErrs := match d.api_key with
    | none => []
    | some k =>
      if k ≠ "" && strStartsWith k "$\x7b" && strEndsWith k "\x7d" then
        let varName : String := ⟨(k.data.drop 2).dropLast⟩
        ["Server \x27" ++ name ++ "\x27: API key environment variable \x27" ++ varName ++
         "\x27 is not set. This server " ++ warningSuffix]
      else []
  let nonNeg := fun (fieldName : String) (v : Option Int) =>
    match v with
    | some n => if n < 0 then
        ["Server \x27" ++ name ++ "\x27: \x27" ++ fieldName ++ "\x27 must be non-negative"]
      else []
    | none => []
  let tempErrs := match d.temperature with
    | some t => if ¬(0 ≤ t ∧ t ≤ 2) then
        ["Server \x27" ++ name ++ "\x27: temperature should be between 0 and 2"]
      else []
    | none => []
  urlErrs ++ typeErrs ++ keyErrs ++
    nonNeg "timeout" d.timeout ++ nonNeg "max_tokens" d.max_tokens ++
    tempErrs ++ nonNeg "context_length" d.context_length ++
    nonNeg "max_results" d.max_results

/-- Embeds `ServerConfig.from_dict` (lines 56–76): `ValueError` from the
`ServerType` constructor and `KeyError` from `data["url"]` become
`Except.error` with the `str()` text of the Python exception. -/
def serverConfigFromDict (name : String) (d : RawServer) :
    Except String ServerConfig :=
  match serverTypeOfString (d.type.getD name) with
  | none => .error ("\x27" ++ d.type.getD name ++ "\x27 is not a valid ServerType")
  | some t =>
    match d.url with
    | none => .error "\x27url\x27"
    | some u => .ok
        { name := name
          type := t
          url := u
          enabled := d.enabled.getD true
          timeout := d.timeout.getD 30
          max_tokens := d.max_tokens
          temperature := d.temperature
          api_key := d.api_key
          model := d.model
          context_length := d.context_length
          max_results := d.max_results
          capabilities := d.capabilities
          description := d.description.getD "" }

/-- One iteration of the per-server loop in `_parse_config` (lines
270–280): extend the message list with the validation errors of this entry,
then parse it, recording a `failed to parse config` message on failure
and the parsed server on success. -/
def parseServersStep (acc : List String × List (String × ServerConfig))
    (p : String × RawServer) : List String × List (String × ServerConfig) :=
  let errs := acc.1 ++ validateServerConfig p.1 p.2
  match serverConfigFromDict p.1 p.2 with
  | .ok sc => (errs, acc.2 ++ [(p.1, sc)])
  | .error e =>
    (errs ++ ["Server \x27" ++ p.1 ++ "\x27: failed to parse config: " ++ e],
     acc.2)

/-- The whole per-server loop of `_parse_config`: the collected messages
and the dict of servers that parsed. -/
def parseServers (raw : RawConfig) :
    List String × List (String × ServerConfig) :=
  raw.servers.foldl parseServersStep ([], [])

/-- Embeds `raw_config.get` of default_server with default llama-mcp. -/
def defaultServerOf (raw : RawConfig) : String :=
  raw.default_server.getD "llama-mcp"

/-- The `default_server not found` check of `_parse_config` (lines
282–288). -/
def defaultServerErrors (servers : List (String × ServerConfig))
    (ds : String) : List String :=
  if (servers.lookup ds).isSome then []
  else ["default_server \x27" ++ ds ++
    "\x27 not found in servers list. Available servers: " ++
    joinComma (servers.map Prod.fst)]

/-- Embeds `raw_config.get` of server_selection_strategy with default auto. -/
def strategyStringOf (raw : RawConfig) : String :=
  raw.server_selection_strategy.getD "auto"

/-- The strategy check of `_parse_config` (lines 290–300), message part. -/
def strategyErrors (stratStr : String) : List String :=
  match routingStrategyOfString stratStr with
  | some _ => []
  | none =>
    ["Invalid server_selection_strategy \x27" ++ stratStr ++
     "\x27. Valid values: " ++ joinComma ["auto", "manual", "multi"]]

/-- The strategy check of `_parse_config`, value part: an invalid string
falls back to `auto`. -/
def resolvedStrategy (stratStr : String) : RoutingStrategy :=
  (routingStrategyOfString stratStr).getD RoutingStrategy.auto

/-- The `fallback_servers` reference check of `_parse_config` (lines
302–306). -/
def fallbackErrors (servers : List (String × ServerConfig))
    (fallback : List String) : List String :=
  (fallback.filter (fun s => (servers.lookup s).isNone)).map
    (fun s => "Fallback server \x27" ++ s ++ "\x27 not found in servers list")

/-- The `routing_rules` reference check of `_parse_config` (lines
308–315). -/
def routingRuleErrors (servers : List (String × ServerConfig))
    (rules : List (String × List String)) : List String :=
  rules.foldl
    (fun acc tr => acc ++
      (tr.2.filter (fun s => (servers.lookup s).isNone)).map
        (fun s => "Routing rule \x27" ++ tr.1 ++ "\x27: server \x27" ++ s ++
          "\x27 not found in servers list"))
    []

/-- All messages `_parse_config` collects into its `errors` list, in
source order. -/
def collectConfigErrors (raw : RawConfig) : List String :=
  (parseServers raw).1
    ++ defaultServerErrors (parseServers raw).2 (defaultServerOf raw)
    ++ strategyErrors (strategyStringOf raw)
    ++ fallbackErrors (parseServers raw).2 raw.fallback_servers
    ++ routingRuleErrors (parseServers raw).2 raw.routing_rules

/-- Embeds `MCPConfigLoader._parse_config` (lines 255–335): collect the messages
above, keep as critical those that do not end with the warning suffix,
raise (`Except.error`, carrying the critical list) when any critical
message exists, and otherwise return the parsed configuration, logging
the remaining messages as warnings. -/
def parseConfig (raw : RawConfig) : Except (List String) MCPConfig :=
  let critical :=
    (collectConfigErrors raw).filter (fun e => !strEndsWith e warningSuffix)
  if critical.isEmpty then
    .ok { servers := (parseServers raw).2
          default_server := defaultServerOf raw
          server_selection_strategy := resolvedStrategy (strategyStringOf raw)
          fallback_servers := raw.fallback_servers
          routing_rules := raw.routing_rules }
  else .error critical

/-! ## Environment-variable substitution (`MCPConfigLoader._replace_env_vars`)

The substitution regex of `_replace_env_vars` scans left to right; at a
position starting with `$` `{` the greedy `[^}]+` takes the maximal
nonempty run of non-`}` characters, which must be followed by `}`.  On a
match the replacer substitutes `os.getenv(name)` when set, else keeps the
placeholder text; on failure the scan advances one position. -/

/-- Split a character list at its first `'}'`: `some (before, after)`, or
`none` when no `'}'` occurs.  This is how the greedy `[^}]+` followed by
`\}` finds the candidate variable name.  The result carries its defining
property, which also provides the termination measure of the scanner. -/
def splitAtBrace : (l : List Char) →
    Option {p : List Char × List Char // l = p.1 ++ '}' :: p.2 ∧ '}' ∉ p.1}
  | [] => none
  | c :: cs =>
    if hc : c = '}' then some ⟨([], cs), by simp [hc]⟩
    else
      match splitAtBrace cs with
      | some ⟨p, hp⟩ =>
        some ⟨(c :: p.1, p.2), by
          refine ⟨by simp [hp.1], ?_⟩
          intro hm
          rcases List.mem_cons.mp hm with h3 | h3
          · exact hc h3.symm
          · exact hp.2 h3⟩
      | none => none

/-- Embeds `MCPConfigLoader._replace_env_vars`, character-level.  `env` is
`os.getenv`. -/
def substC (env : String → Option String) : List Char → List Char
  | [] => []
  | c :: cs =>
    if c ≠ '$' then c :: substC env cs
    else
      match cs with
      | [] => [c]
      | d :: rest =>
        if d ≠ '{' then c :: substC env (d :: rest)
        else
          match splitAtBrace rest with
          | none => c :: substC env (d :: rest)
          | some pp =>
            if pp.val.1.isEmpty then c :: substC env (d :: rest)
            else
              (match env ⟨pp.val.1⟩ with
               | some v => v.data
               | none => c :: d :: (pp.val.1 ++ ['}'])) ++ substC env pp.val.2
termination_by l => l.length
decreasing_by
  all_goals first
    | (have h9 := pp.property.1
       simp [h9]
       omega)
    | (simp; try omega)

/-- Embeds `MCPConfigLoader._replace_env_vars` on strings. -/
def replaceEnvVars (env : String → Option String) (s : String) : String :=
  ⟨substC env s.data⟩

/-- Whether the regex `\$\{([^}]+)\}` matches anywhere in the input: the
input "contains a `$\x7b...\x7d` placeholder".  Mirrors the scan of
`substC`. -/
def hasPlaceholder : List Char → Bool
  | [] => false
  | c :: cs =>
    if c ≠ '$' then hasPlaceholder cs
    else if cs.head? ≠ some '{' then hasPlaceholder cs
    else
      match splitAtBrace cs.tail with
      | none => hasPlaceholder cs
      | some pp =>
        if pp.val.1.isEmpty then hasPlaceholder cs else true

/-- The literal text `$\x7bname\x7d` of a placeholder. -/
def placeholderText (name : String) : String :=
  "$\x7b" ++ name ++ "\x7d"

/-! ## Step cache and pipeline (`dspy_mcp_integration.py`)

`DSPyMCPIntegration.process_research_query` drives the three-stage
pipeline analyze → gather → synthesize over `self._step_cache`, a dict
keyed by the first 100 characters of the query.  The stage bodies (DSPy and MCP calls) are
abstract oracles here: `Except` models a stage either completing or
throwing.  The returned `List Stage` instruments which stage oracles the
run actually invoked, and the `Option R` is `some` on the success path
and `none` on the exception path (where the source returns a fallback
`ResearchPiplineResult` built from whatever is available). -/

/-- Embeds one `_step_cache` entry with fields analysis and external_info. -/
structure StepEntry (A B : Type) where
  analysis : Option A
  external_info : Option B
deriving DecidableEq, Repr

/-- The step cache: a dict from truncated query keys to entries. -/
abbrev StepCache (A B : Type) : Type := List (String × StepEntry A B)

/-- Embeds dict assignment of a fresh one-field analysis entry:
replace in place when present, else append. -/
def cacheSet {A B : Type} (c : StepCache A B) (k : String) (e : StepEntry A B) :
    StepCache A B :=
  if (List.lookup k c).isSome then
    c.map (fun p => if p.1 = k then (k, e) else p)
  else c ++ [(k, e)]

/-- Embeds `self._step_cache[key]` update of external info: mutate the existing
external_info field of the existing entry, keeping its analysis. -/
def cacheSetExternal {A B : Type} (c : StepCache A B) (k : String) (b : B) :
    StepCache A B :=
  c.map (fun p => if p.1 = k then (k, ⟨p.2.analysis, some b⟩) else p)

/-- Embeds `if key in self._step_cache: del self._step_cache[key]`. -/
def cacheDel {A B : Type} (c : StepCache A B) (k : String) : StepCache A B :=
  c.filter (fun p => p.1 ≠ k)

/-- The three pipeline stages. -/
inductive Stage where
  | analyze | gather | synth
deriving DecidableEq, Repr

/-- Step 3 of `process_research_query`: run `self.research_pipeline`; on
success delete the cache entry and return the result, on an exception
leave the cache as is. -/
def pipelineFromSynth {A B R : Type} {E : Type} (key : String)
    (stS : Except E R) (c : StepCache A B) (stages : List Stage) :
    Option R × StepCache A B × List Stage :=
  match stS with
  | .error _ => (none, c, stages ++ [Stage.synth])
  | .ok r => (some r, cacheDel c key, stages ++ [Stage.synth])

/-- Step 2 of `process_research_query`: skipped when the snapshot already
holds `external_info`; otherwise run `gather_information` and cache its
result into the existing entry. -/
def pipelineFromGather {A B R : Type} {E : Type} (key : String)
    (stG : Except E B) (stS : B → Except E R) (x0 : Option B)
    (c : StepCache A B) (stages : List Stage) :
    Option R × StepCache A B × List Stage :=
  match x0 with
  | some b => pipelineFromSynth key (stS b) c stages
  | none =>
    match stG with
    | .error _ => (none, c, stages ++ [Stage.gather])
    | .ok b =>
      pipelineFromSynth key (stS b) (cacheSetExternal c key b)
        (stages ++ [Stage.gather])

/-- Embeds `DSPyMCPIntegration.process_research_query` (with the step cache
enabled): snapshot the entry for `user_query[:100]`, skip stages whose
snapshot value is present, cache each completed stage (`analysis` as a
fresh one-field entry, `external_info` into the existing entry), delete
the entry on full success, and on any stage throwing return the fallback
(`none`) with the cache as the failed run left it. -/
def processResearchQuery {A B R : Type} {E : Type} (query : String)
    (stA : Except E A) (stG : A → Except E B) (stS : B → Except E R)
    (cache : StepCache A B) : Option R × StepCache A B × List Stage :=
  let key := query.take 100
  let cached := List.lookup key cache
  let a0 := cached.bind (fun e => e.analysis)
  let x0 := cached.bind (fun e => e.external_info)
  match a0 with
  | some a => pipelineFromGather key (stG a) stS x0 cache []
  | none =>
    match stA with
    | .error _ => (none, cache, [Stage.analyze])
    | .ok a =>
      pipelineFromGather key (stG a) stS x0
        (cacheSet cache key ⟨some a, none⟩) [Stage.analyze]

/-! ## Bounded-concurrency dispatch (`_search_multiple` vs the semaphore)

Both fan-outs spawn one coroutine per item with `asyncio.gather` and are
embedded as interleaving step relations over the list of per-task phases.
A task is *in flight* while its backend call is executing.

* In `DSPyMCPIntegration.gather_information`, each task body is
  `_query_with_semaphore`, which enters `async with self._mcp_semaphore`
  before calling `self.mcp_client.search`: a task becomes in-flight only
  when fewer than `limit` tasks hold the semaphore (`SemaphoreStep`).
* In `UnifiedMCPClient._search_multiple`, each task body is
  `_search_single` directly — there is no limiter, so any waiting task
  may become in-flight at any time (`GatherAllStep`). -/

/-- Phase of one spawned coroutine. -/
inductive TaskPhase where
  | waiting | inflight | done
deriving DecidableEq, Repr

/-- State of one fan-out: the phase of each spawned task. -/
abbrev DispatchState : Type := List TaskPhase

/-- Number of simultaneously in-flight backend calls. -/
def inflightCount (s : DispatchState) : Nat :=
  s.countP (fun p => match p with | TaskPhase.inflight => true | _ => false)

/-- All tasks start waiting (just spawned by `asyncio.gather`). -/
def initTasks (n : Nat) : DispatchState := List.replicate n TaskPhase.waiting

/-- Interleaving semantics of the fan-out of `gather_information`: `acquire`
is the entry of `async with self._mcp_semaphore` (blocked unless fewer
than `limit` calls are in flight, `limit` being
the configured max_concurrent_queries), `release` is the exit of the
`async with` block when the query finishes. -/
inductive SemaphoreStep (limit : Nat) : DispatchState → DispatchState → Prop
  | acquire (s : DispatchState) (i : Nat)
      (hw : s.get? i = some TaskPhase.waiting)
      (hc : inflightCount s < limit) :
      SemaphoreStep limit s (s.set i TaskPhase.inflight)
  | release (s : DispatchState) (i : Nat)
      (hr : s.get? i = some TaskPhase.inflight) :
      SemaphoreStep limit s (s.set i TaskPhase.done)

/-- Interleaving semantics of the fan-out of `_search_multiple`: every spawned
`_search_single` task starts its backend call unconditionally — the code
has no semaphore or other limiter. -/
inductive GatherAllStep : DispatchState → DispatchState → Prop
  | start (s : DispatchState) (i : Nat)
      (hw : s.get? i = some TaskPhase.waiting) :
      GatherAllStep s (s.set i TaskPhase.inflight)
  | finish (s : DispatchState) (i : Nat)
      (hr : s.get? i = some TaskPhase.inflight) :
      GatherAllStep s (s.set i TaskPhase.done)

/-- Embeds `self.config` key max_concurrent_queries — the configured concurrency
limit of the integration layer (`dspy_mcp_integration.py` line 89). -/
def maxConcurrentQueries : Nat := 3

/-! ## Predicates used in statements -/

/-- Environments under which substitution cannot create a new match: every
set value is nonempty and contains neither a dollar nor an opening brace. -/
def goodEnvVals (env : String → Option String) : Prop :=
  ∀ n v, env n = some v → v ≠ "" ∧ '$' ∉ v.data ∧ '{' ∉ v.data

/-- Every entry present in the step cache holds an analysis value. -/
def cacheInvariant {A B : Type} (c : StepCache A B) : Prop :=
  ∀ p ∈ c, p.2.analysis.isSome = true

/-! ## Concrete instances used in witnesses and counterexamples -/

/-- A minimal backend entry. -/
def mkServer (name : String) (t : ServerType) (enab : Bool) : ServerConfig :=
  { name := name
    type := t
    url := "http://localhost"
    enabled := enab
    timeout := 30
    max_tokens := none
    temperature := none
    api_key := none
    model := none
    context_length := none
    max_results := none
    capabilities := []
    description := "" }

/-- The end-to-end scenario configuration of the spec (section 8): `llm`
enabled and default, `web` enabled, `archive` disabled, one routing rule
for current events, `web` as fallback. -/
def demoConfig : MCPConfig :=
  { servers := [("llm", mkServer "llm" ServerType.ollama true),
                ("web", mkServer "web" ServerType.web_search true),
                ("archive", mkServer "archive" ServerType.arxiv false)]
    default_server := "llm"
    server_selection_strategy := RoutingStrategy.auto
    fallback_servers := ["web"]
    routing_rules := [("current_events", ["web"])] }

/-- An empty handler table; the adapters are irrelevant for the absent and
disabled paths. -/
def noHandlers : HandlerTable := fun _ => none

/-- A raw server entry of kind ollama with a url. -/
def rawOllama : RawServer :=
  { RawServer.empty with type := some "ollama", url := some "http://localhost" }

/-- A raw configuration whose single server carries a name that ends with
the text of the warning suffix, while `default_server` names a missing
server.  The dangling-default message then ends with the warning suffix
and is misclassified as a soft warning. -/
def rawDanglingDefault : RawConfig :=
  { servers := [("srv may not work correctly.", rawOllama)]
    default_server := some "missing"
    server_selection_strategy := none
    fallback_servers := []
    routing_rules := [] }

/-- A raw server entry with no `type` field and a url. -/
def rawNoType : RawServer :=
  { RawServer.empty with url := some "http://localhost" }

/-- The configuration `parseConfig` returns for `rawDanglingDefault`:
note that its default server is not a key of its servers dict. -/
def danglingParsed : MCPConfig :=
  { servers := [("srv may not work correctly.",
      mkServer "srv may not work correctly." ServerType.ollama true)]
    default_server := "missing"
    server_selection_strategy := RoutingStrategy.auto
    fallback_servers := []
    routing_rules := [] }

/-- A raw configuration whose single server has no `type` field and whose
name is not a valid kind. -/
def rawInvalidName : RawConfig :=
  { servers := [("myserver", { RawServer.empty with url := some "u" })]
    default_server := some "myserver"
    server_selection_strategy := none
    fallback_servers := []
    routing_rules := [] }

/-- An environment in which the value of `A` is itself a placeholder for
the set variable `B` — substitution is not idempotent under it. -/
def envChained : String → Option String :=
  fun n => if n = "A" then some ("$\x7bB\x7d")
           else if n = "B" then some "V" else none

/-- A benign environment: one variable holding a plain nonempty value. -/
def envPlain : String → Option String :=
  fun n => if n = "GREETING" then some "hello" else none

/-! # Theorems -/

/-! ## Shared auxiliary lemmas -/

theorem strStartsWith_append (a b pre : String)
    (h : strStartsWith a pre = true) : strStartsWith (a ++ b) pre = true := by
  simp only [strStartsWith, String.data_append] at h ⊢
  rw [ List.isPrefixOf_iff_prefix] at h ⊢
  exact h.trans ( List.prefix_append a.data b.data)

theorem lookup_append_of_none {β : Type} {l₁ : List (String × β)}
    (l₂ : List (String × β)) {k : String} (h : List.lookup k l₁ = none) :
    List.lookup k (l₁ ++ l₂) = List.lookup k l₂ := by
  induction l₁ with
  | nil => rfl
  | cons p t ih =>
    obtain ⟨a, b⟩ := p
    rw [List.lookup_cons] at h
    rw [show ((a, b) :: t) ++ l₂ = (a, b) :: (t ++ l₂) from rfl, List.lookup_cons]
    by_cases hk : k = a
    · have hb : (k == a) = true := by simpa using hk
      rw [hb] at h
      simp at h
    · have hb : (k == a) = false := by simpa using hk
      rw [hb] at h ⊢
      exact ih h

theorem lookup_singleton_ne {β : Type} {k n : String} (v : β) (h : k ≠ n) :
    List.lookup k [(n, v)] = none := by
  rw [List.lookup_cons]
  have : (k == n) = false := by simpa using h
  rw [this]
  rfl

theorem dictInsert_fresh {d : List (String × String)} {k : String}
    (v : String) (h : List.lookup k d = none) :
    dictInsert d k v = d ++ [(k, v)] := by
  simp [dictInsert, h]

/-! ## C1: manual-mode selection -/

/-- C1 counterexample: the claim says manual selection filters the
explicit list to present-and-enabled backends and falls through to the
default backend when the filter empties it; `manualSelectSpec` states
that behaviour.  On `demoConfig` with the explicit list `["missing"]`
the claim demands `["llm"]`, but `UnifiedMCPClient.search` uses the
explicit list verbatim and selects `["missing"]`. -/
theorem searchSelect_manual_filtered_cx :
    searchSelect demoConfig "query" (some ["missing"]) none = ["missing"] ∧
    manualSelectSpec demoConfig ["missing"] = ["llm"] ∧
    searchSelect demoConfig "query" (some ["missing"]) none ≠
      manualSelectSpec demoConfig ["missing"] := by
  refine ⟨rfl, by decide, by decide⟩

/-- C1 (amended): for every configuration, query and strategy argument,
manual-mode selection — an explicit `servers` list passed to
`UnifiedMCPClient.search` — is used verbatim: no filtering to present or
enabled backends takes place and there is no fall-through to the default
backend; absent or disabled entries are kept and later yield per-backend
`Error:` strings. -/
theorem searchSelect_manual_verbatim (cfg : MCPConfig) (query : String)
    (explicit : List String) (strategy : Option RoutingStrategy) :
    searchSelect cfg query (some explicit) strategy = explicit := rfl

/-! ## C3: result-map shape of the multi-backend search -/

/-- C3 counterexample: the claim says the result map of `_search_multiple`
always has exactly `n` entries for `n` requested backend names.  With the
duplicate request `["a", "a"]` (n = 2) the dict collapses to one entry. -/
theorem searchMultiple_dup_cx :
    (searchMultiple ["a", "a"] [Except.ok "r1", Except.ok "r2"]).length = 1 ∧
    (searchMultiple ["a", "a"] [Except.ok "r1", Except.ok "r2"]).length ≠
      (["a", "a"] : List String).length := by
  refine ⟨by decide, by decide⟩

theorem searchMultiple_fold_keys :
    ∀ (names : List String) (results : List (Except String String))
      (d : List (String × String)),
      names.Nodup → results.length = names.length →
      (∀ k ∈ names, List.lookup k d = none) →
      ((names.zip results).foldl
        (fun d p => dictInsert d p.1 (renderResult p.2)) d).map Prod.fst
        = d.map Prod.fst ++ names := by
  intro names
  induction names with
  | nil => intro results d _ _ _; simp
  | cons n ns ih =>
    intro results d hnd hlen hdk
    cases results with
    | nil => simp at hlen
    | cons r rs =>
      have hd : List.lookup n d = none := hdk n (by simp)
      rw [List.zip_cons_cons, List.foldl_cons, dictInsert_fresh _ hd,
        ih rs (d ++ [(n, renderResult r)]) (List.nodup_cons.mp hnd).2
          (by simpa using hlen) ?_]
      · simp
      · intro k hk
        have hkn : k ≠ n := by
          intro he; subst he; exact (List.nodup_cons.mp hnd).1 hk
        rw [lookup_append_of_none _ (hdk k (by simp [hk]))]
        exact lookup_singleton_ne _ hkn

/-- C3 (amended): for every query and every list of `n` *distinct*
requested backend names, `_search_multiple` returns a map with exactly
`n` entries, one per requested backend, keyed in the originally requested
order, regardless of how many of the individual outcomes (`results`,
one per name, arbitrary values or exceptions) failed.  For a request
list with duplicate names the dict instead collapses the duplicates. -/
theorem searchMultiple_shape (names : List String)
    (results : List (Except String String)) (hnd : names.Nodup)
    (hlen : results.length = names.length) :
    (searchMultiple names results).length = names.length ∧
    (searchMultiple names results).map Prod.fst = names := by
  have hk : (searchMultiple names results).map Prod.fst = names := by
    unfold searchMultiple
    rw [searchMultiple_fold_keys names results [] hnd hlen (by simp)]
    simp
  constructor
  · have := congrArg List.length hk
    simpa using this
  · exact hk

/-- Witness for C3 (amended): two distinct names, one call failing with an
exception, still two entries in requested order. -/
theorem searchMultiple_shape_witness :
    (searchMultiple ["a", "b"] [Except.ok "r", Except.error "boom"]).length
        = (["a", "b"] : List String).length ∧
    (searchMultiple ["a", "b"] [Except.ok "r", Except.error "boom"]).map
        Prod.fst = ["a", "b"] :=
  searchMultiple_shape ["a", "b"] [Except.ok "r", Except.error "boom"]
    (by decide) (by decide)

/-! ## C4: multi selection when no routing keyword matches -/

theorem dedupFirst_singleton (s : String) : dedupFirst [s] = [s] := by
  simp [dedupFirst, dedupFirstAux]

theorem foldRules_no_match (cfg : MCPConfig) (ql : List Char) :
    ∀ (rules : List (String × List String)) (acc : List String),
      (∀ tr ∈ rules, ruleMatches ql tr.1 = false) →
      rules.foldl
        (fun acc tr =>
          if ruleMatches ql tr.1 then acc ++ tr.2.filter (serverEnabled cfg)
          else acc) acc = acc := by
  intro rules
  induction rules with
  | nil => intro acc _; rfl
  | cons tr rs ih =>
    intro acc H
    rw [List.foldl_cons, H tr (by simp)]
    simp only [Bool.false_eq_true, if_false]
    exact ih acc (fun tr2 h2 => H tr2 (by simp [h2]))

/-- C4: for every configuration and query in which no keyword of any
routing-rule topic occurs as a substring of the lower-cased query,
`_auto_select_servers` returns exactly the enabled (present-and-enabled)
subset of the configured fallback backends — as first-occurrence
deduplicated, order-preserving list — and exactly `[defaultBackend]`
when that subset is empty. -/
theorem autoSelectServers_no_keyword (cfg : MCPConfig) (query : String)
    (H : ∀ tr ∈ cfg.routing_rules, ∀ kw ∈ topicKeywords tr.1,
        containsSub kw (query.data.map Char.toLower) = false) :
    autoSelectServers cfg query =
      (if (cfg.fallback_servers.filter (serverEnabled cfg)).isEmpty
       then [cfg.default_server]
       else dedupFirst (cfg.fallback_servers.filter (serverEnabled cfg))) := by
  have hrm : ∀ tr ∈ cfg.routing_rules,
      ruleMatches (query.data.map Char.toLower) tr.1 = false := by
    intro tr htr
    unfold ruleMatches
    rw [List.any_eq_false]
    intro kw hkw
    rw [H tr htr kw hkw]
    simp
  unfold autoSelectServers
  simp only [foldRules_no_match cfg (query.data.map Char.toLower)
    cfg.routing_rules [] hrm]
  by_cases hfb : (cfg.fallback_servers.filter (serverEnabled cfg)).isEmpty
  · simp [hfb, dedupFirst_singleton]
  · simp [hfb]

/-- Witness for C4: the query has no routing keyword, the fallback list
filters to the enabled `web`, and the selection is exactly that subset. -/
theorem autoSelectServers_no_keyword_witness :
    (∀ tr ∈ demoConfig.routing_rules, ∀ kw ∈ topicKeywords tr.1,
        containsSub kw (("tell me a fact").data.map Char.toLower) = false) ∧
    autoSelectServers demoConfig "tell me a fact" = ["web"] :=
  ⟨by decide,
   (autoSelectServers_no_keyword demoConfig "tell me a fact" (by decide)).trans
     (by decide)⟩

/-! ## C7: single-backend search on absent or disabled backends -/

/-- C7: a single-backend search (`_search_single`) for a backend that is
absent from the configuration, or present but disabled, returns a string
beginning with `Error:`.  The embedding is a total function — every
handler exception is caught and rendered as a string, so the search never
raises. -/
theorem searchSingle_error_isolation (cfg : MCPConfig)
    (handlers : HandlerTable) (query serverName : String) :
    (cfg.getServer serverName = none →
      strStartsWith (searchSingle cfg handlers query serverName) "Error:"
        = true) ∧
    (∀ sc, cfg.getServer serverName = some sc → sc.enabled = false →
      strStartsWith (searchSingle cfg handlers query serverName) "Error:"
        = true) := by
  constructor
  · intro h
    simp only [searchSingle, h]
    exact strStartsWith_append _ _ _ (strStartsWith_append _ _ _ (by decide))
  · intro sc hsc hen
    simp only [searchSingle, hsc, hen]
    exact strStartsWith_append _ _ _ (strStartsWith_append _ _ _ (by decide))

/-- Witness for C7 on the demo configuration: a missing backend and the
disabled `archive` backend both yield `Error:`-prefixed strings. -/
theorem searchSingle_error_isolation_witness :
    strStartsWith (searchSingle demoConfig noHandlers "q" "missing")
      "Error:" = true ∧
    strStartsWith (searchSingle demoConfig noHandlers "q" "archive")
      "Error:" = true :=
  ⟨(searchSingle_error_isolation demoConfig noHandlers "q" "missing").1
     (by decide),
   (searchSingle_error_isolation demoConfig noHandlers "q" "archive").2
     (mkServer "archive" ServerType.arxiv false) (by decide) (by decide)⟩

/-! ## C5: load-time validation of dangling references -/

/-- C5 (code bug): the claim says loading a raw configuration whose
default backend is not a key of the backends map must fail.  On
`rawDanglingDefault` — a configuration whose only server is named
`srv may not work correctly.` and whose `default_server` is the missing
name `missing` — `_parse_config` returns a configuration instead of
raising: the dangling-default message ends with the text by which the
loader classifies soft warnings, so the only critical error is dropped.
The returned configuration has a default server that is not among its
servers. -/
theorem parseConfig_dangling_default_accepted :
    parseConfig rawDanglingDefault = Except.ok danglingParsed ∧
    List.lookup danglingParsed.default_server danglingParsed.servers
      = none := by
  constructor
  · rfl
  · decide

/-! ## C9: the server name doubles as its type -/

theorem strEndsWith_append_const (pre T : String)
    (h : strEndsWith (pre ++ T) warningSuffix = true)
    (hlen : warningSuffix.data.length ≤ T.data.length) :
    strEndsWith T warningSuffix = true := by
  simp only [strEndsWith, String.data_append] at h ⊢
  rw [ List.isSuffixOf_iff_suffix] at h ⊢
  rcases List.suffix_or_suffix_of_suffix h
    ( List.suffix_append pre.data T.data) with h1 | h1
  · exact h1
  · have hl : T.data.length = warningSuffix.data.length :=
      Nat.le_antisymm h1.length_le hlen
    rw [h1.eq_of_length hl]

theorem invalidTypeMsg_not_warning (name stype : String) :
    strEndsWith ("Server \x27" ++ name ++ "\x27: invalid type \x27" ++ stype ++
      "\x27. Valid types: " ++ joinComma (allServerTypes.map ServerType.value))
      warningSuffix = false := by
  cases h : strEndsWith ("Server \x27" ++ name ++ "\x27: invalid type \x27" ++
      stype ++ "\x27. Valid types: " ++
      joinComma (allServerTypes.map ServerType.value)) warningSuffix
  · rfl
  · exact absurd (strEndsWith_append_const _ _ h (by decide)) (by decide)

theorem invalidType_mem_validate (name : String) (d : RawServer)
    (ht : d.type = none) (hs : serverTypeOfString name = none) :
    ("Server \x27" ++ name ++ "\x27: invalid type \x27" ++ name ++
      "\x27. Valid types: " ++ joinComma (allServerTypes.map ServerType.value))
      ∈ validateServerConfig name d := by
  unfold validateServerConfig
  rw [ht]
  simp [hs]

theorem parseServersStep_superset
    (acc : List String × List (String × ServerConfig))
    (q : String × RawServer) (e : String)
    (h : e ∈ acc.1 ++ validateServerConfig q.1 q.2) :
    e ∈ (parseServersStep acc q).1 := by
  unfold parseServersStep
  cases serverConfigFromDict q.1 q.2 with
  | ok sc => exact h
  | error msg => exact List.mem_append.mpr (Or.inl h)

theorem mem_parseServersFold :
    ∀ (l : List (String × RawServer))
      (acc : List String × List (String × ServerConfig)) (e : String),
      (e ∈ acc.1 ∨ ∃ p ∈ l, e ∈ validateServerConfig p.1 p.2) →
      e ∈ (l.foldl parseServersStep acc).1 := by
  intro l
  induction l with
  | nil =>
    intro acc e h
    rcases h with h | ⟨p, hp, _⟩
    · exact h
    · simp at hp
  | cons q qs ih =>
    intro acc e h
    rw [List.foldl_cons]
    apply ih
    rcases h with h | ⟨p, hp, hv⟩
    · exact Or.inl (parseServersStep_superset acc q e
        (List.mem_append.mpr (Or.inl h)))
    · rcases List.mem_cons.mp hp with rfl | hp2
      · exact Or.inl (parseServersStep_superset acc p e
          (List.mem_append.mpr (Or.inr hv)))
      · exact Or.inr ⟨p, hp2, hv⟩

theorem parseConfig_fails_of_critical (raw : RawConfig) (e : String)
    (he : e ∈ collectConfigErrors raw)
    (hw : strEndsWith e warningSuffix = false) :
    ∃ errs, parseConfig raw = Except.error errs := by
  have hmem : e ∈ (collectConfigErrors raw).filter
      (fun x => !strEndsWith x warningSuffix) :=
    List.mem_filter.mpr ⟨he, by rw [hw]; rfl⟩
  have hne : ((collectConfigErrors raw).filter
      (fun x => !strEndsWith x warningSuffix)).isEmpty = false :=
    List.isEmpty_eq_false.mpr (List.ne_nil_of_mem hmem)
  refine ⟨(collectConfigErrors raw).filter
      (fun x => !strEndsWith x warningSuffix), ?_⟩
  unfold parseConfig
  simp only [hne, Bool.false_eq_true, if_false]

/-- C9: when a raw server entry omits the `type` field, both validation
and parsing use the map key (the server name) as its type.  First part: a
server whose name is a valid kind parses to a config of that kind.
Second part: a server without a `type` field whose name is not a valid
kind makes the whole load fail with a validation error. -/
theorem serverType_defaults_to_name :
    (∀ (name : String) (d : RawServer) (t : ServerType) (sc : ServerConfig),
      d.type = none → serverTypeOfString name = some t →
      serverConfigFromDict name d = Except.ok sc → sc.type = t)
    ∧ (∀ (raw : RawConfig) (name : String) (d : RawServer),
      (name, d) ∈ raw.servers → d.type = none →
      serverTypeOfString name = none →
      ∃ errs, parseConfig raw = Except.error errs) := by
  constructor
  · intro name d t sc ht hs hok
    unfold serverConfigFromDict at hok
    rw [ht] at hok
    simp only [Option.getD_none, hs] at hok
    cases hu : d.url with
    | none => rw [hu] at hok; simp at hok
    | some u =>
      rw [hu] at hok
      simp only [Except.ok.injEq] at hok
      rw [← hok]
  · intro raw name d hmem ht hs
    apply parseConfig_fails_of_critical raw
      ("Server \x27" ++ name ++ "\x27: invalid type \x27" ++ name ++
        "\x27. Valid types: " ++
        joinComma (allServerTypes.map ServerType.value))
    · unfold collectConfigErrors parseServers
      refine List.mem_append.mpr (Or.inl ?_)
      refine List.mem_append.mpr (Or.inl ?_)
      refine List.mem_append.mpr (Or.inl ?_)
      refine List.mem_append.mpr (Or.inl ?_)
      exact mem_parseServersFold raw.servers ([], []) _
        (Or.inr ⟨(name, d), hmem, invalidType_mem_validate name d ht hs⟩)
    · exact invalidTypeMsg_not_warning name name

/-- Witness for C9: the name `arxiv` with no type loads as kind arxiv;
the configuration `rawInvalidName`, whose typeless server is named
`myserver`, fails to load. -/
theorem serverType_defaults_to_name_witness :
    (mkServer "arxiv" ServerType.arxiv true).type = ServerType.arxiv ∧
    (∃ errs, parseConfig rawInvalidName = Except.error errs) :=
  ⟨serverType_defaults_to_name.1 "arxiv" rawNoType ServerType.arxiv
     (mkServer "arxiv" ServerType.arxiv true) rfl (by decide) rfl,
   serverType_defaults_to_name.2 rawInvalidName "myserver"
     { RawServer.empty with url := some "u" } (by decide) rfl (by decide)⟩

/-! ## Step-cache operation lemmas (shared by C8 and C10) -/

theorem cacheSet_fresh {A B : Type} {c : StepCache A B} {k : String}
    (e : StepEntry A B) (h : List.lookup k c = none) :
    cacheSet c k e = c ++ [(k, e)] := by
  simp [cacheSet, h]

theorem lookup_cons_self {β : Type} (k : String) (v : β)
    (t : List (String × β)) : List.lookup k ((k, v) :: t) = some v := by
  rw [List.lookup_cons]
  simp

theorem lookup_cacheSet_fresh {A B : Type} {c : StepCache A B} {k : String}
    (e : StepEntry A B) (h : List.lookup k c = none) :
    List.lookup k (cacheSet c k e) = some e := by
  rw [cacheSet_fresh e h, lookup_append_of_none _ h, lookup_cons_self]

theorem cacheSetExternal_append {A B : Type} (c : StepCache A B) (k : String)
    (a : Option A) (x : Option B) (b : B) :
    cacheSetExternal (c ++ [(k, ⟨a, x⟩)]) k b
      = cacheSetExternal c k b ++ [(k, ⟨a, some b⟩)] := by
  simp [cacheSetExternal]

theorem cacheSetExternal_of_absent {A B : Type} {c : StepCache A B}
    {k : String} (b : B) (h : List.lookup k c = none) :
    cacheSetExternal c k b = c := by
  induction c with
  | nil => rfl
  | cons p t ih =>
    obtain ⟨a2, e2⟩ := p
    rw [List.lookup_cons] at h
    by_cases hk : k = a2
    · have hb : (k == a2) = true := by simpa using hk
      rw [hb] at h
      simp at h
    · have hb : (k == a2) = false := by simpa using hk
      rw [hb] at h
      unfold cacheSetExternal at ih ⊢
      simp only [List.map_cons]
      rw [if_neg (fun hh => hk hh.symm)]
      rw [ih h]

theorem lookup_cacheDel_self {A B : Type} (c : StepCache A B) (k : String) :
    List.lookup k (cacheDel c k) = none := by
  induction c with
  | nil => rfl
  | cons p t ih =>
    unfold cacheDel at ih ⊢
    rw [List.filter_cons]
    by_cases hk : p.1 = k
    · rw [if_neg (by simp [hk])]
      exact ih
    · rw [if_pos (by simp [hk])]
      rw [List.lookup_cons]
      have hb : (k == p.1) = false := by
        simp only [beq_eq_false_iff_ne]
        exact fun hh => hk hh.symm
      rw [hb]
      exact ih

/-! ## C8: step-cache lifecycle across failures and retries -/

/-- C8: for a query whose truncated key is not yet cached, the step cache
entry keyed by the first 100 characters of the query is deleted exactly
on full pipeline success; when a stage throws, the stages completed
before it remain cached under that key, and a retry of the same query
resumes from the first missing stage: after a gather failure the retry
skips analyze but runs gather, after a synthesis failure the retry runs
synthesize only, and a retry whose synthesis succeeds returns its result
and deletes the entry. -/
theorem stepCache_lifecycle {A B R E : Type} (query : String)
    (stA : Except E A) (stG : A → Except E B) (stS : B → Except E R)
    (cache : StepCache A B)
    (hfresh : List.lookup (query.take 100) cache = none) :
    (∀ a b r, stA = Except.ok a → stG a = Except.ok b → stS b = Except.ok r →
      (processResearchQuery query stA stG stS cache).1 = some r ∧
      List.lookup (query.take 100)
        (processResearchQuery query stA stG stS cache).2.1 = none)
    ∧ (∀ e, stA = Except.error e →
      (processResearchQuery query stA stG stS cache).2.1 = cache)
    ∧ (∀ a e, stA = Except.ok a → stG a = Except.error e →
      List.lookup (query.take 100)
          (processResearchQuery query stA stG stS cache).2.1
        = some ⟨some a, none⟩ ∧
      (∀ (stA2 : Except E A) (stG2 : A → Except E B) (stS2 : B → Except E R),
        Stage.analyze ∉ (processResearchQuery query stA2 stG2 stS2
            (processResearchQuery query stA stG stS cache).2.1).2.2 ∧
        Stage.gather ∈ (processResearchQuery query stA2 stG2 stS2
            (processResearchQuery query stA stG stS cache).2.1).2.2))
    ∧ (∀ a b e, stA = Except.ok a → stG a = Except.ok b →
      stS b = Except.error e →
      List.lookup (query.take 100)
          (processResearchQuery query stA stG stS cache).2.1
        = some ⟨some a, some b⟩ ∧
      (∀ (stA2 : Except E A) (stG2 : A → Except E B) (stS2 : B → Except E R),
        (processResearchQuery query stA2 stG2 stS2
            (processResearchQuery query stA stG stS cache).2.1).2.2
          = [Stage.synth]) ∧
      (∀ (stA2 : Except E A) (stG2 : A → Except E B) (stS2 : B → Except E R)
          (r2 : R), stS2 b = Except.ok r2 →
        (processResearchQuery query stA2 stG2 stS2
            (processResearchQuery query stA stG stS cache).2.1).1
          = some r2 ∧
        List.lookup (query.take 100)
            (processResearchQuery query stA2 stG2 stS2
              (processResearchQuery query stA stG stS cache).2.1).2.1
          = none)) := by
  refine ⟨?_, ?_, ?_, ?_⟩
  · intro a b r ha hg hs
    subst ha
    simp only [processResearchQuery, pipelineFromGather, pipelineFromSynth,
      hfresh, hg, hs, Option.none_bind]
    exact ⟨trivial, lookup_cacheDel_self _ _⟩
  · intro e ha
    subst ha
    simp only [processResearchQuery, hfresh, Option.none_bind]
  · intro a e ha hg
    subst ha
    simp only [processResearchQuery, pipelineFromGather, hfresh, hg,
      Option.none_bind]
    have hl : List.lookup (query.take 100)
        (cacheSet cache (query.take 100)
          (⟨some a, none⟩ : StepEntry A B)) = some ⟨some a, none⟩ :=
      lookup_cacheSet_fresh _ hfresh
    refine ⟨hl, ?_⟩
    intro stA2 stG2 stS2
    simp only [processResearchQuery, pipelineFromGather, pipelineFromSynth,
      hl, Option.some_bind]
    cases hx : stG2 a with
    | error e2 => simp [hx]
    | ok b2 =>
      cases hy : stS2 b2 with
      | error e3 => simp [hx, hy]
      | ok r2 => simp [hx, hy]
  · intro a b e ha hg hs
    subst ha
    have hset : cacheSet cache (query.take 100)
        (⟨some a, none⟩ : StepEntry A B)
        = cache ++ [(query.take 100, ⟨some a, none⟩)] :=
      cacheSet_fresh _ hfresh
    simp only [processResearchQuery, pipelineFromGather, pipelineFromSynth,
      hfresh, hg, hs, Option.none_bind, hset, cacheSetExternal_append,
      cacheSetExternal_of_absent b hfresh]
    have hl : List.lookup (query.take 100)
        (cache ++ [(query.take 100, (⟨some a, some b⟩ : StepEntry A B))])
        = some ⟨some a, some b⟩ := by
      rw [lookup_append_of_none _ hfresh, lookup_cons_self]
    refine ⟨hl, ?_, ?_⟩
    · intro stA2 stG2 stS2
      simp only [processResearchQuery, pipelineFromGather, pipelineFromSynth,
        hl, Option.some_bind]
      cases hy : stS2 b with
      | error e3 => simp [hy]
      | ok r2 => simp [hy]
    · intro stA2 stG2 stS2 r2 hy
      simp only [processResearchQuery, pipelineFromGather, pipelineFromSynth,
        hl, Option.some_bind, hy]
      exact ⟨trivial, lookup_cacheDel_self _ _⟩

/-- Witness for C8 with natural-number stages: a fresh empty cache, a run
whose gather stage fails, then checks of the cached entry and of which
stages a retry invokes, plus the full-success deletion. -/
theorem stepCache_lifecycle_witness :
    ((processResearchQuery "q" ((Except.ok 1 : Except Nat Nat))
        (fun _ => (Except.ok 2 : Except Nat Nat)) (fun _ => (Except.ok 3 : Except Nat Nat))
        ([] : StepCache Nat Nat)).1 = some 3 ∧
      List.lookup ("q".take 100)
        (processResearchQuery "q" ((Except.ok 1 : Except Nat Nat))
          (fun _ => (Except.ok 2 : Except Nat Nat)) (fun _ => (Except.ok 3 : Except Nat Nat))
          ([] : StepCache Nat Nat)).2.1 = none) ∧
    (List.lookup ("q".take 100)
        (processResearchQuery "q" ((Except.ok 1 : Except Nat Nat))
          (fun _ => (Except.error 7 : Except Nat Nat)) (fun _ => (Except.ok 3 : Except Nat Nat))
          ([] : StepCache Nat Nat)).2.1 = some ⟨some 1, none⟩ ∧
      Stage.analyze ∉ (processResearchQuery "q" ((Except.ok 5 : Except Nat Nat))
          (fun _ => (Except.ok 2 : Except Nat Nat)) (fun _ => (Except.ok 3 : Except Nat Nat))
          (processResearchQuery "q" ((Except.ok 1 : Except Nat Nat))
            (fun _ => (Except.error 7 : Except Nat Nat))
            (fun _ => (Except.ok 3 : Except Nat Nat)) ([] : StepCache Nat Nat)).2.1).2.2 ∧
      Stage.gather ∈ (processResearchQuery "q" ((Except.ok 5 : Except Nat Nat))
          (fun _ => (Except.ok 2 : Except Nat Nat)) (fun _ => (Except.ok 3 : Except Nat Nat))
          (processResearchQuery "q" ((Except.ok 1 : Except Nat Nat))
            (fun _ => (Except.error 7 : Except Nat Nat))
            (fun _ => (Except.ok 3 : Except Nat Nat)) ([] : StepCache Nat Nat)).2.1).2.2) := by
  have h1 := (stepCache_lifecycle "q" ((Except.ok 1 : Except Nat Nat))
    (fun _ => (Except.ok 2 : Except Nat Nat)) (fun _ => (Except.ok 3 : Except Nat Nat))
    ([] : StepCache Nat Nat) rfl).1 1 2 3 rfl rfl rfl
  have h3 := (stepCache_lifecycle "q" ((Except.ok 1 : Except Nat Nat))
    (fun _ => (Except.error 7 : Except Nat Nat)) (fun _ => (Except.ok 3 : Except Nat Nat))
    ([] : StepCache Nat Nat) rfl).2.2.1 1 7 rfl rfl
  exact ⟨h1, h3.1, (h3.2 ((Except.ok 5 : Except Nat Nat)) (fun _ => (Except.ok 2 : Except Nat Nat))
    (fun _ => (Except.ok 3 : Except Nat Nat))).1, (h3.2 ((Except.ok 5 : Except Nat Nat)) (fun _ => (Except.ok 2 : Except Nat Nat))
    (fun _ => (Except.ok 3 : Except Nat Nat))).2⟩

/-! ## C10: every step-cache entry holds an analysis value -/

theorem cacheInvariant_cacheSet {A B : Type} {c : StepCache A B} {k : String}
    {e : StepEntry A B} (hinv : cacheInvariant c)
    (he : e.analysis.isSome = true) : cacheInvariant (cacheSet c k e) := by
  intro p hp
  unfold cacheSet at hp
  by_cases hx : (List.lookup k c).isSome
  · rw [if_pos hx] at hp
    obtain ⟨q, hq, hpe⟩ := List.mem_map.mp hp
    by_cases hqk : q.1 = k
    · rw [if_pos hqk] at hpe
      rw [← hpe]
      exact he
    · rw [if_neg hqk] at hpe
      rw [← hpe]
      exact hinv q hq
  · rw [if_neg hx] at hp
    rcases List.mem_append.mp hp with h | h
    · exact hinv p h
    · simp only [List.mem_singleton] at h
      rw [h]
      exact he

theorem cacheInvariant_cacheSetExternal {A B : Type} {c : StepCache A B}
    {k : String} (b : B) (hinv : cacheInvariant c) :
    cacheInvariant (cacheSetExternal c k b) := by
  intro p hp
  unfold cacheSetExternal at hp
  obtain ⟨q, hq, hpe⟩ := List.mem_map.mp hp
  by_cases hqk : q.1 = k
  · rw [if_pos hqk] at hpe
    rw [← hpe]
    exact hinv q hq
  · rw [if_neg hqk] at hpe
    rw [← hpe]
    exact hinv q hq

theorem cacheInvariant_cacheDel {A B : Type} {c : StepCache A B}
    {k : String} (hinv : cacheInvariant c) : cacheInvariant (cacheDel c k) :=
  fun p hp => hinv p (List.mem_filter.mp hp).1

theorem cacheInvariant_pipelineFromSynth {A B R E : Type} (key : String)
    (stS : Except E R) (c : StepCache A B) (st : List Stage)
    (hinv : cacheInvariant c) :
    cacheInvariant (pipelineFromSynth key stS c st).2.1 := by
  unfold pipelineFromSynth
  cases stS with
  | error e => exact hinv
  | ok r => exact cacheInvariant_cacheDel hinv

theorem cacheInvariant_pipelineFromGather {A B R E : Type} (key : String)
    (stG : Except E B) (stS : B → Except E R) (x0 : Option B)
    (c : StepCache A B) (st : List Stage) (hinv : cacheInvariant c) :
    cacheInvariant (pipelineFromGather key stG stS x0 c st).2.1 := by
  unfold pipelineFromGather
  cases x0 with
  | some b => exact cacheInvariant_pipelineFromSynth _ _ _ _ hinv
  | none =>
    cases stG with
    | error e => exact hinv
    | ok b =>
      exact cacheInvariant_pipelineFromSynth _ _ _ _
        (cacheInvariant_cacheSetExternal b hinv)

/-- C10: the pipeline driver preserves the invariant that every entry
present in the step cache holds an analysis value — entries are only ever
created by the stage-1 write of a fresh one-field entry (replacing any
prior entry for the key), gathered text is only added into an existing
entry, and deletion only removes entries. -/
theorem stepCache_invariant_preserved {A B R E : Type} (query : String)
    (stA : Except E A) (stG : A → Except E B) (stS : B → Except E R)
    (cache : StepCache A B) (hinv : cacheInvariant cache) :
    cacheInvariant (processResearchQuery query stA stG stS cache).2.1 := by
  simp only [processResearchQuery]
  split
  · exact cacheInvariant_pipelineFromGather _ _ _ _ _ _ hinv
  · split
    · exact hinv
    · exact cacheInvariant_pipelineFromGather _ _ _ _ _ _
        (cacheInvariant_cacheSet hinv rfl)

/-- Witness for C10: a one-entry invariant-satisfying cache stays
invariant through a run that fails at synthesis. -/
theorem stepCache_invariant_preserved_witness :
    cacheInvariant (processResearchQuery "q" (Except.ok 1)
      (fun _ => Except.ok 2) (fun _ => (Except.error 9 : Except Nat Nat))
      ([("k", ⟨some 5, none⟩)] : StepCache Nat Nat)).2.1 :=
  stepCache_invariant_preserved "q" (Except.ok 1) (fun _ => Except.ok 2)
    (fun _ => (Except.error 9 : Except Nat Nat))
    ([("k", ⟨some 5, none⟩)] : StepCache Nat Nat)
    (by intro p hp
        rw [List.mem_singleton] at hp
        rw [hp]
        rfl)

/-! ## C2: the concurrency bound of multi-backend dispatch -/

theorem get?_to_getElem {α : Type} {l : List α} {i : Nat} {a : α}
    (h : l.get? i = some a) : ∃ hi : i < l.length, l[i] = a := by
  rw [List.get?_eq_some] at h
  obtain ⟨hi, hg⟩ := h
  exact ⟨hi, by rw [← hg]; simp [List.get_eq_getElem]⟩

/-- C2 (amended): the semaphore-gated fan-out of `gather_information`
keeps the number of simultaneously in-flight MCP calls at or below the
configured limit, in every state reachable from the initial all-waiting
state, for any number of spawned tasks. -/
theorem semaphore_bounds_inflight (limit n : Nat) (s : DispatchState)
    (h : Relation.ReflTransGen (SemaphoreStep limit) (initTasks n) s) :
    inflightCount s ≤ limit := by
  induction h with
  | refl =>
    simp [inflightCount, initTasks, List.countP_replicate]
  | tail hab hbc ih =>
    cases hbc with
    | acquire i hw hc =>
      obtain ⟨hi, hgi⟩ := get?_to_getElem hw
      unfold inflightCount at *
      rw [List.countP_set _ _ _ _ hi, hgi]
      simp
      omega
    | release i hr =>
      obtain ⟨hi, hgi⟩ := get?_to_getElem hr
      unfold inflightCount at *
      rw [List.countP_set _ _ _ _ hi, hgi]
      simp
      omega

/-- Witness for C2 (amended): with four spawned tasks and the configured
limit 3, one acquire step leads to a reachable state whose in-flight
count obeys the bound. -/
theorem semaphore_bounds_inflight_witness :
    inflightCount ((initTasks 4).set 0 TaskPhase.inflight)
      ≤ maxConcurrentQueries :=
  semaphore_bounds_inflight maxConcurrentQueries 4 _
    (Relation.ReflTransGen.single
      (SemaphoreStep.acquire (initTasks 4) 0 rfl (by decide)))

/-- C2 counterexample: the claim says a multi-backend dispatch with more
backends than the configured concurrency limit never exceeds the limit of
simultaneously in-flight calls.  In `_search_multiple` the fan-out has no
limiter: from the initial state of a dispatch over four backends every
task may start at once, reaching a state with four in-flight calls,
which exceeds the configured limit `maxConcurrentQueries = 3`. -/
theorem gatherAll_exceeds_limit_cx :
    Relation.ReflTransGen GatherAllStep (initTasks 4)
      [TaskPhase.inflight, TaskPhase.inflight,
       TaskPhase.inflight, TaskPhase.inflight] ∧
    inflightCount
      [TaskPhase.inflight, TaskPhase.inflight,
       TaskPhase.inflight, TaskPhase.inflight] = 4 ∧
    maxConcurrentQueries < 4 := by
  refine ⟨?_, by decide, by decide⟩
  exact Relation.ReflTransGen.tail
    (Relation.ReflTransGen.tail
      (Relation.ReflTransGen.tail
        (Relation.ReflTransGen.single
          (GatherAllStep.start (initTasks 4) 0 rfl))
        (GatherAllStep.start _ 1 rfl))
      (GatherAllStep.start _ 2 rfl))
    (GatherAllStep.start _ 3 rfl)

/-! ## C6: environment-variable substitution

Equation lemmas for the scanner, one per scan outcome. -/

theorem substC_nil (env : String → Option String) : substC env [] = [] := by
  unfold substC
  rfl

theorem substC_cons_ne (env : String → Option String) {c : Char}
    (cs : List Char) (h : c ≠ '$') :
    substC env (c :: cs) = c :: substC env cs := by
  conv_lhs => unfold substC
  simp [h]

theorem substC_dollar (env : String → Option String) (cs : List Char)
    (h : cs.head? ≠ some '{') :
    substC env ('$' :: cs) = '$' :: substC env cs := by
  cases cs with
  | nil =>
    conv_lhs => unfold substC
    simp [substC_nil]
  | cons d rest =>
    simp only [List.head?_cons, ne_eq, Option.some.injEq] at h
    conv_lhs => unfold substC
    simp [h]

theorem substC_brace_none (env : String → Option String) (rest : List Char)
    (hs : splitAtBrace rest = none) :
    substC env ('$' :: '{' :: rest) = '$' :: substC env ('{' :: rest) := by
  conv_lhs => unfold substC
  simp [hs]

theorem substC_brace_empty (env : String → Option String) (rest : List Char)
    (pp) (hs : splitAtBrace rest = some pp) (he : pp.val.1 = []) :
    substC env ('$' :: '{' :: rest) = '$' :: substC env ('{' :: rest) := by
  conv_lhs => unfold substC
  simp [hs, he]

theorem substC_hit (env : String → Option String) (rest : List Char)
    (pp) (v : String) (hs : splitAtBrace rest = some pp)
    (hne : pp.val.1 ≠ []) (he : env ⟨pp.val.1⟩ = some v) :
    substC env ('$' :: '{' :: rest) = v.data ++ substC env pp.val.2 := by
  conv_lhs => unfold substC
  simp [hs, he, hne]

theorem substC_keep (env : String → Option String) (rest : List Char)
    (pp) (hs : splitAtBrace rest = some pp)
    (hne : pp.val.1 ≠ []) (he : env ⟨pp.val.1⟩ = none) :
    substC env ('$' :: '{' :: rest)
      = ('$' :: '{' :: (pp.val.1 ++ ['}'])) ++ substC env pp.val.2 := by
  conv_lhs => unfold substC
  simp [hs, he, hne]

theorem splitAtBrace_cons_none {c : Char} {cs : List Char}
    (h : splitAtBrace (c :: cs) = none) :
    c ≠ '}' ∧ splitAtBrace cs = none := by
  by_cases hc : c = '}'
  · unfold splitAtBrace at h
    simp [hc] at h
  · refine ⟨hc, ?_⟩
    cases hsp : splitAtBrace cs with
    | none => rfl
    | some p =>
      unfold splitAtBrace at h
      rw [dif_neg hc, hsp] at h
      simp at h

/-- A string in which the regex finds no closing brace at all is returned
unchanged by one scan. -/
theorem substC_id_of_none (env : String → Option String) :
    ∀ (N : Nat) (l : List Char), l.length ≤ N → splitAtBrace l = none →
      substC env l = l := by
  intro N
  induction N with
  | zero =>
    intro l hl _
    have h0 : l = [] := List.length_eq_zero.mp (Nat.le_zero.mp hl)
    rw [h0, substC_nil]
  | succ n ih =>
    intro l hl hs
    cases l with
    | nil => exact substC_nil env
    | cons c cs =>
      obtain ⟨hc, hcs⟩ := splitAtBrace_cons_none hs
      by_cases hd : c = '$'
      · subst hd
        cases cs with
        | nil => rw [substC_dollar env [] (by simp), substC_nil]
        | cons d rest =>
          by_cases hb : d = '{'
          · subst hb
            obtain ⟨hd2, hrest⟩ := splitAtBrace_cons_none hcs
            rw [substC_brace_none env rest hrest]
            rw [ih ('{' :: rest) (by simp at hl ⊢; omega) hcs]
          · rw [substC_dollar env (d :: rest) (by simp [hb])]
            rw [ih (d :: rest) (by simp at hl ⊢; omega) hcs]
      · rw [substC_cons_ne env cs hd]
        rw [ih cs (by simp at hl ⊢; omega) hcs]

/-- The splitter finds exactly the name before the first closing brace. -/
theorem splitAtBrace_append (name : List Char) (r : List Char)
    (hn : '}' ∉ name) :
    ∃ pp, splitAtBrace (name ++ '}' :: r) = some pp ∧ pp.val = (name, r) := by
  induction name with
  | nil =>
    refine ⟨⟨([], r), by simp⟩, ?_, rfl⟩
    unfold splitAtBrace
    rfl
  | cons c nt ih =>
    have hc : c ≠ '}' := fun h => hn (by simp [h])
    have hnt : '}' ∉ nt := fun h => hn (by simp [h])
    obtain ⟨pp2, hsp2, hval2⟩ := ih hnt
    obtain ⟨⟨n2, r2⟩, hprop2⟩ := pp2
    simp only [Prod.mk.injEq] at hval2
    obtain ⟨rfl, rfl⟩ := hval2
    refine ⟨⟨(c :: n2, r2), ⟨rfl, ?_⟩⟩, ?_, rfl⟩
    · intro hm
      rcases List.mem_cons.mp hm with h1 | h1
      · exact hc h1.symm
      · exact hprop2.2 h1
    · show splitAtBrace (c :: (n2 ++ '}' :: r2)) = _
      unfold splitAtBrace
      rw [dif_neg hc, hsp2]

/-- A prefix free of dollars is inert: the scan passes over it. -/
theorem substC_append_inert (env : String → Option String) :
    ∀ (a b : List Char), '$' ∉ a → substC env (a ++ b) = a ++ substC env b := by
  intro a
  induction a with
  | nil => intro b _; rfl
  | cons c t ih =>
    intro b ha
    have hc : c ≠ '$' := fun h => ha (by simp [h])
    have ht : '$' ∉ t := fun h => ha (by simp [h])
    rw [show (c :: t) ++ b = c :: (t ++ b) from rfl,
      substC_cons_ne env _ hc, ih b ht]
    rfl

/-- Under a benign environment, a scan of an input that does not start
with an opening brace never produces output starting with one. -/
theorem substC_head_ne_brace (env : String → Option String)
    (hg : goodEnvVals env) (cs : List Char) (h : cs.head? ≠ some '{') :
    (substC env cs).head? ≠ some '{' := by
  cases cs with
  | nil => rw [substC_nil]; simp
  | cons c cs2 =>
    by_cases hc : c = '$'
    · subst hc
      cases cs2 with
      | nil =>
        rw [substC_dollar env [] (by simp), substC_nil]
        simp
      | cons d rest =>
        by_cases hb : d = '{'
        · subst hb
          cases hsp : splitAtBrace rest with
          | none => rw [substC_brace_none env rest hsp]; simp
          | some pp =>
            by_cases hne : pp.val.1 = []
            · rw [substC_brace_empty env rest pp hsp hne]; simp
            · cases he : env ⟨pp.val.1⟩ with
              | some v =>
                rw [substC_hit env rest pp v hsp hne he]
                obtain ⟨hv1, hv2, hv3⟩ := hg _ v he
                cases hvd : v.data with
                | nil =>
                  exact absurd (by cases v with | mk dd =>
                    simp at hvd
                    rw [hvd]) hv1
                | cons ch t =>
                  simp only [List.cons_append, List.head?_cons, ne_eq,
                    Option.some.injEq]
                  intro hch
                  exact hv3 (by rw [hvd, hch]; exact List.mem_cons_self _ _)
              | none =>
                rw [substC_keep env rest pp hsp hne he]
                simp
        · rw [substC_dollar env (d :: rest) (by simp [hb])]
          simp
    · rw [substC_cons_ne env cs2 hc]
      simp only [List.head?_cons, ne_eq, Option.some.injEq] at h ⊢
      exact h

theorem hasPlaceholder_cons_ne {c : Char} (cs : List Char) (h : c ≠ '$') :
    hasPlaceholder (c :: cs) = hasPlaceholder cs := by
  conv_lhs => unfold hasPlaceholder
  simp [h]

theorem hasPlaceholder_dollar (cs : List Char) (h : cs.head? ≠ some '{') :
    hasPlaceholder ('$' :: cs) = hasPlaceholder cs := by
  conv_lhs => unfold hasPlaceholder
  simp [h]

theorem hasPlaceholder_brace_none (rest : List Char)
    (hs : splitAtBrace rest = none) :
    hasPlaceholder ('$' :: '{' :: rest) = hasPlaceholder ('{' :: rest) := by
  conv_lhs => unfold hasPlaceholder
  simp [hs]

theorem hasPlaceholder_brace_empty (rest : List Char) (pp)
    (hs : splitAtBrace rest = some pp) (he : pp.val.1 = []) :
    hasPlaceholder ('$' :: '{' :: rest) = hasPlaceholder ('{' :: rest) := by
  conv_lhs => unfold hasPlaceholder
  simp [hs, he]

theorem hasPlaceholder_brace_found (rest : List Char) (pp)
    (hs : splitAtBrace rest = some pp) (hne : pp.val.1 ≠ []) :
    hasPlaceholder ('$' :: '{' :: rest) = true := by
  conv_lhs => unfold hasPlaceholder
  simp [hs, hne]

/-- One scan leaves an input without any placeholder unchanged. -/
theorem substC_id_of_no_placeholder (env : String → Option String) :
    ∀ (N : Nat) (l : List Char), l.length ≤ N → hasPlaceholder l = false →
      substC env l = l := by
  intro N
  induction N with
  | zero =>
    intro l hl _
    have h0 : l = [] := List.length_eq_zero.mp (Nat.le_zero.mp hl)
    rw [h0, substC_nil]
  | succ n ih =>
    intro l hl hp
    cases l with
    | nil => exact substC_nil env
    | cons c cs =>
      by_cases hd : c = '$'
      · subst hd
        cases cs with
        | nil => rw [substC_dollar env [] (by simp), substC_nil]
        | cons d rest =>
          by_cases hb : d = '{'
          · subst hb
            cases hsp : splitAtBrace rest with
            | none =>
              rw [hasPlaceholder_brace_none rest hsp] at hp
              rw [substC_brace_none env rest hsp]
              rw [ih ('{' :: rest) (by simp at hl ⊢; omega) hp]
            | some pp =>
              by_cases hne : pp.val.1 = []
              · rw [hasPlaceholder_brace_empty rest pp hsp hne] at hp
                rw [substC_brace_empty env rest pp hsp hne]
                rw [ih ('{' :: rest) (by simp at hl ⊢; omega) hp]
              · rw [hasPlaceholder_brace_found rest pp hsp hne] at hp
                simp at hp
          · rw [hasPlaceholder_dollar (d :: rest) (by simp [hb])] at hp
            rw [substC_dollar env (d :: rest) (by simp [hb])]
            rw [ih (d :: rest) (by simp at hl ⊢; omega) hp]
      · rw [hasPlaceholder_cons_ne cs hd] at hp
        rw [substC_cons_ne env cs hd]
        rw [ih cs (by simp at hl ⊢; omega) hp]

theorem splitAtBrace_cons_brace (r : List Char) :
    ∃ pp, splitAtBrace ('}' :: r) = some pp ∧ pp.val = ([], r) := by
  refine ⟨⟨([], r), by simp⟩, ?_, rfl⟩
  unfold splitAtBrace
  rfl

/-- Core induction: under a benign environment, a second scan of the
output of a first scan changes nothing. -/
theorem substC_idem_aux (env : String → Option String)
    (hg : goodEnvVals env) :
    ∀ (N : Nat) (l : List Char), l.length ≤ N →
      substC env (substC env l) = substC env l := by
  intro N
  induction N with
  | zero =>
    intro l hl
    have h0 : l = [] := List.length_eq_zero.mp (Nat.le_zero.mp hl)
    rw [h0, substC_nil, substC_nil]
  | succ n ih =>
    intro l hl
    cases l with
    | nil => rw [substC_nil, substC_nil]
    | cons c cs =>
      by_cases hc : c = '$'
      case neg =>
        rw [substC_cons_ne env cs hc, substC_cons_ne env _ hc,
          ih cs (by simp at hl ⊢; omega)]
      case pos =>
        subst hc
        cases cs with
        | nil =>
          rw [substC_dollar env [] (by simp), substC_nil,
            substC_dollar env [] (by simp), substC_nil]
        | cons d rest =>
          by_cases hb : d = '{'
          case neg =>
            rw [substC_dollar env (d :: rest) (by simp [hb])]
            rw [substC_dollar env _
              (substC_head_ne_brace env hg (d :: rest) (by simp [hb]))]
            rw [ih (d :: rest) (by simp at hl ⊢; omega)]
          case pos =>
            subst hb
            cases hsp : splitAtBrace rest with
            | none =>
              have hsn : splitAtBrace ('{' :: rest) = none := by
                unfold splitAtBrace
                rw [dif_neg (by decide : ¬('{' : Char) = '}'), hsp]
              have hid : substC env ('{' :: rest) = '{' :: rest :=
                substC_id_of_none env ('{' :: rest).length ('{' :: rest)
                  (le_refl _) hsn
              rw [substC_brace_none env rest hsp, hid,
                substC_brace_none env rest hsp, hid]
            | some pp =>
              have hrl : rest.length
                  = pp.val.1.length + 1 + pp.val.2.length := by
                have h2 := congrArg List.length pp.property.1
                simp at h2
                omega
              have hbound : pp.val.2.length ≤ n := by
                simp at hl
                omega
              by_cases hne : pp.val.1 = []
              case pos =>
                have hrest : rest = '}' :: pp.val.2 := by
                  have h1 := pp.property.1
                  rw [hne] at h1
                  simpa using h1
                have hrsub : substC env rest
                    = '}' :: substC env pp.val.2 := by
                  conv_lhs => rw [hrest]
                  rw [substC_cons_ne env _ (by decide : ('}' : Char) ≠ '$')]
                have heq : substC env ('$' :: '{' :: rest)
                    = '$' :: '{' :: '}' :: substC env pp.val.2 := by
                  rw [substC_brace_empty env rest pp hsp hne,
                    substC_cons_ne env rest (by decide : ('{' : Char) ≠ '$'),
                    hrsub]
                rw [heq]
                obtain ⟨pp2, hsp2, hval2⟩ :=
                  splitAtBrace_cons_brace (substC env pp.val.2)
                rw [substC_brace_empty env _ pp2 hsp2
                    (by rw [hval2]),
                  substC_cons_ne env _ (by decide : ('{' : Char) ≠ '$'),
                  substC_cons_ne env _ (by decide : ('}' : Char) ≠ '$'),
                  ih pp.val.2 hbound]
              case neg =>
                cases he : env ⟨pp.val.1⟩ with
                | some v =>
                  rw [substC_hit env rest pp v hsp hne he]
                  obtain ⟨hv1, hv2, hv3⟩ := hg _ v he
                  rw [substC_append_inert env v.data _ hv2,
                    ih pp.val.2 hbound]
                | none =>
                  rw [substC_keep env rest pp hsp hne he]
                  have hassoc : ('$' :: '{' :: (pp.val.1 ++ ['}']))
                        ++ substC env pp.val.2
                      = '$' :: '{'
                        :: (pp.val.1 ++ '}' :: substC env pp.val.2) := by
                    simp
                  rw [hassoc]
                  obtain ⟨pp2, hsp2, hval2⟩ := splitAtBrace_append pp.val.1
                    (substC env pp.val.2) pp.property.2
                  have h1 : pp2.val.1 = pp.val.1 := by rw [hval2]
                  have h2 : pp2.val.2 = substC env pp.val.2 := by rw [hval2]
                  rw [substC_keep env _ pp2 hsp2
                      (by rw [h1]; exact hne)
                      (by rw [h1]; exact he),
                    h1, h2, ih pp.val.2 hbound, hassoc]

/-- C6 (amended): environment-variable substitution
(`_replace_env_vars`) is idempotent for every input string provided no
set environment value is empty or contains a dollar or an opening brace
(so substitution cannot create a new placeholder); unconditionally, a
string containing no placeholder is returned unchanged, and a placeholder
whose variable is unset is left verbatim in the output. -/
theorem replaceEnvVars_props (env : String → Option String) :
    (goodEnvVals env →
      ∀ s, replaceEnvVars env (replaceEnvVars env s) = replaceEnvVars env s)
    ∧ (∀ s, hasPlaceholder s.data = false → replaceEnvVars env s = s)
    ∧ (∀ name : String, name.data ≠ [] → '}' ∉ name.data →
      env name = none →
      replaceEnvVars env (placeholderText name) = placeholderText name) := by
  refine ⟨?_, ?_, ?_⟩
  · intro hg s
    unfold replaceEnvVars
    exact congrArg String.mk
      (substC_idem_aux env hg s.data.length s.data (le_refl _))
  · intro s hp
    unfold replaceEnvVars
    rw [substC_id_of_no_placeholder env s.data.length s.data (le_refl _) hp]
  · intro name hne hnb he
    unfold replaceEnvVars placeholderText
    obtain ⟨pp2, hsp2, hval2⟩ := splitAtBrace_append name.data [] hnb
    have hd : ("$\x7b" ++ name ++ "\x7d").data
        = '$' :: '{' :: (name.data ++ '}' :: []) := by
      simp [String.data_append]
    rw [hd]
    rw [substC_keep env _ pp2 hsp2 (by rw [hval2]; exact hne)
      (by rw [hval2]; exact he)]
    rw [show pp2.val.1 = name.data from by rw [hval2],
      show pp2.val.2 = ([] : List Char) from by rw [hval2], substC_nil]
    simp
    rw [← hd]

/-- C6 counterexample: the claim says substitution is idempotent on every
input string.  Under `envChained` — where the variable `A` holds the text
of a placeholder for the set variable `B` — substituting the input
placeholder for `A` once yields the placeholder for `B`, and a second
substitution yields the value of `B`, so applying the function twice
differs from applying it once. -/
theorem replaceEnvVars_not_idempotent_cx :
    replaceEnvVars envChained (replaceEnvVars envChained "$\x7bA\x7d")
      ≠ replaceEnvVars envChained "$\x7bA\x7d" ∧
    replaceEnvVars envChained "$\x7bA\x7d" = "$\x7bB\x7d" ∧
    replaceEnvVars envChained "$\x7bB\x7d" = "V" := by
  have h1 : replaceEnvVars envChained "$\x7bA\x7d" = "$\x7bB\x7d" := by
    unfold replaceEnvVars
    obtain ⟨pp, hsp, hval⟩ := splitAtBrace_append ['A'] [] (by decide)
    show (⟨substC envChained ('$' :: '{' :: (['A'] ++ '}' :: []))⟩ : String)
      = "$\x7bB\x7d"
    rw [substC_hit envChained _ pp "$\x7bB\x7d" hsp
      (by rw [hval]; decide) (by rw [hval]; rfl)]
    rw [show pp.val.2 = ([] : List Char) from by rw [hval], substC_nil]
    rfl
  have h2 : replaceEnvVars envChained "$\x7bB\x7d" = "V" := by
    unfold replaceEnvVars
    obtain ⟨pp, hsp, hval⟩ := splitAtBrace_append ['B'] [] (by decide)
    show (⟨substC envChained ('$' :: '{' :: (['B'] ++ '}' :: []))⟩ : String)
      = "V"
    rw [substC_hit envChained _ pp "V" hsp
      (by rw [hval]; decide) (by rw [hval]; rfl)]
    rw [show pp.val.2 = ([] : List Char) from by rw [hval], substC_nil]
    rfl
  refine ⟨?_, h1, h2⟩
  rw [h1, h2]
  decide

/-- Witness for C6 (amended) under a benign environment: idempotence on a
placeholder input, identity on a placeholder-free input, and preservation
of a placeholder for an unset variable. -/
theorem replaceEnvVars_props_witness :
    replaceEnvVars envPlain (replaceEnvVars envPlain "$\x7bGREETING\x7d")
      = replaceEnvVars envPlain "$\x7bGREETING\x7d" ∧
    replaceEnvVars envPlain "plain" = "plain" ∧
    replaceEnvVars envPlain (placeholderText "UNSET")
      = placeholderText "UNSET" :=
  ⟨(replaceEnvVars_props envPlain).1
     (by
       intro n v h
       unfold envPlain at h
       by_cases hn : n = "GREETING"
       · rw [if_pos hn] at h
         simp only [Option.some.injEq] at h
         subst h
         refine ⟨by decide, by decide, by decide⟩
       · rw [if_neg hn] at h
         simp at h)
     "$\x7bGREETING\x7d",
   (replaceEnvVars_props envPlain).2.1 "plain" (by decide),
   (replaceEnvVars_props envPlain).2.2 "UNSET" (by decide) (by decide) rfl⟩

end Omd
